import Mathlib

/-!
Verification of `juit-capacitor-updater` (src: `updateCapacitor`,
`persistUpdates`, `normalize`).

The three functions of the single source module are shallowly embedded:

* `normalize` (source lines 256-261): `new URL(uriOrPath, 'file:///').pathname`
  followed by collapsing runs of slashes and removing trailing slashes.  The
  URL resolution is modelled after the WHATWG basic URL parser on character
  lists (`urlPathname`): scheme dispatch, authority skipping, dot-segment
  removal (including percent-encoded dots), backslash-as-slash for special
  schemes, opaque paths for non-special schemes, and truncation at the query
  or fragment delimiter.  Percent-encoding of disallowed code points, host
  validation (which can make `new URL` throw) and the Windows drive-letter
  quirks of the `file` scheme are not modelled: they affect no slash or
  dot-segment structure, which is all `normalize` manipulates.

* `updateCapacitor` (lines 75-184) and `persistUpdates` (lines 196-254) are
  embedded as functions of an explicit world record supplying the outcome of
  every Capacitor capability call (download, read, unzip, write, getUri,
  delete, readdir, rmdir, served-base-path get/persist).  Each returns the
  JavaScript outcome (`Except` models a resolved/rejected promise) paired
  with the trace of capability calls and progress-callback invocations, in
  order.  Progress fractions are modelled as rationals.
-/

namespace CapUpdater

/-! ## Character-level model of `new URL(s, 'file:///').pathname` -/

/-- First character of a URL scheme (`a-z`, `A-Z`). -/
def isSchemeStart (c : Char) : Bool := c.isAlpha

/-- Subsequent characters of a URL scheme. -/
def isSchemeChar (c : Char) : Bool := c.isAlphanum || c = '+' || c = '-' || c = '.'

/-- Split a leading `scheme:` off a URL string, lower-casing the scheme.
Returns `none` when the string has no scheme (a relative reference). -/
def schemeSplit (cs : List Char) : Option (List Char × List Char) :=
  match cs with
  | [] => none
  | c :: rest =>
    if isSchemeStart c then
      let body := rest.takeWhile isSchemeChar
      match rest.drop body.length with
      | ':' :: tail => some ((c :: body).map Char.toLower, tail)
      | _ => none
    else none

/-- The WHATWG special schemes. -/
def isSpecialScheme (s : List Char) : Bool :=
  let str := String.mk s
  str = "http" || str = "https" || str = "ws" || str = "wss" || str = "ftp" || str = "file"

/-- Path separator for special schemes: both `/` and `\`. -/
def isSepSpecial (c : Char) : Bool := c = '/' || c = '\\'

/-- Path separator for non-special schemes: only `/`. -/
def isSepPlain (c : Char) : Bool := c = '/'

/-- Truncate at the first query or fragment delimiter. -/
def stripQF (cs : List Char) : List Char := cs.takeWhile (fun c => !(c = '?' || c = '#'))

/-- Split a character list into chunks at separator characters (the
separators themselves are dropped; `n` separators yield `n+1` chunks). -/
def splitSeps (isSep : Char → Bool) : List Char → List (List Char)
  | [] => [[]]
  | c :: rest =>
    if isSep c then [] :: splitSeps isSep rest
    else
      match splitSeps isSep rest with
      | h :: t => (c :: h) :: t
      | [] => [[c]]

/-- A single-dot path segment (`.` or `%2e`, case-insensitive). -/
def isDot1 (s : List Char) : Bool :=
  let l := s.map Char.toLower
  l = ['.'] || l = ['%', '2', 'e']

/-- A double-dot path segment (`..`, `.%2e`, `%2e.` or `%2e%2e`,
case-insensitive). -/
def isDot2 (s : List Char) : Bool :=
  let l := s.map Char.toLower
  l = ['.', '.'] || l = ['.', '%', '2', 'e'] || l = ['%', '2', 'e', '.'] ||
    l = ['%', '2', 'e', '%', '2', 'e']

/-- Any dot-like path segment. -/
def isDotSeg (s : List Char) : Bool := isDot1 s || isDot2 s

/-- WHATWG dot-segment removal: `..` pops the previous segment, `.` is
dropped, anything else is appended. -/
def applyDots (segs : List (List Char)) : List (List Char) :=
  segs.foldl
    (fun acc seg =>
      if isDot2 seg then acc.dropLast
      else if isDot1 seg then acc
      else acc ++ [seg])
    []

/-- Serialize path segments to an absolute pathname (`/`-prefixed each). -/
def serializeAbs (segs : List (List Char)) : List Char :=
  (segs.map (fun s => '/' :: s)).flatten

/-- Build a pathname from raw (already split) segments: remove dot segments,
and keep the trailing slash a final dot-like segment leaves behind. -/
def pathFromSegs (rawSegs : List (List Char)) : List Char :=
  let segs := applyDots rawSegs
  let segs' :=
    match rawSegs.getLast? with
    | some last => if isDotSeg last then segs ++ [[]] else segs
    | none => segs
  serializeAbs segs'

/-- Split an authority from the remainder (which still carries its leading
separator, when present). -/
def splitAuthority (isSep : Char → Bool) (cs : List Char) : List Char × List Char :=
  (cs.takeWhile (fun c => !isSep c), cs.dropWhile (fun c => !isSep c))

/-- Pathname following an authority: empty remainder serializes as `/` for
special schemes and as the empty pathname for non-special ones. -/
def pathAfterAuthority (isSep : Char → Bool) (specialDefault : Bool)
    (rest : List Char) : List Char :=
  match rest with
  | [] => if specialDefault then serializeAbs [[]] else []
  | _ :: tail => pathFromSegs (splitSeps isSep tail)

/-- Resolve the part after `file:`, or a scheme-less relative reference,
against the base `file:///` (whose path is `/`): two leading separators
introduce an authority, one leading separator is a path-absolute reference,
anything else merges with the base path. -/
def parseFileRelative (cs : List Char) : List Char :=
  match cs with
  | [] => serializeAbs [[]]
  | [c] =>
    if isSepSpecial c then serializeAbs [[]]
    else pathFromSegs (splitSeps isSepSpecial [c])
  | c1 :: c2 :: tail =>
    if isSepSpecial c1 && isSepSpecial c2 then
      let (_, r) := splitAuthority isSepSpecial tail
      pathAfterAuthority isSepSpecial true r
    else if isSepSpecial c1 then
      pathFromSegs (splitSeps isSepSpecial (c2 :: tail))
    else
      pathFromSegs (splitSeps isSepSpecial (c1 :: c2 :: tail))

/-- Pathname of a non-file special-scheme URL: all leading separators are
skipped, then an authority, then the path. -/
def specialAfterScheme (cs : List Char) : List Char :=
  let r := cs.dropWhile isSepSpecial
  let (_, r2) := splitAuthority isSepSpecial r
  pathAfterAuthority isSepSpecial true r2

/-- Pathname of a non-special-scheme URL: `//` introduces an authority, a
single `/` a path-absolute hierarchical path, anything else an opaque path
kept verbatim. -/
def nonSpecialAfterScheme (cs : List Char) : List Char :=
  match cs with
  | '/' :: '/' :: tail =>
    let (_, r) := splitAuthority isSepPlain tail
    pathAfterAuthority isSepPlain false r
  | '/' :: tail => pathFromSegs (splitSeps isSepPlain tail)
  | _ => cs

/-- The value of `new URL(s, 'file:///').pathname`, on character lists. -/
def urlPathname (cs : List Char) : List Char :=
  let q := stripQF cs
  match schemeSplit q with
  | some (sch, rest) =>
    if String.mk sch = "file" then parseFileRelative rest
    else if isSpecialScheme sch then specialAfterScheme rest
    else nonSpecialAfterScheme rest
  | none => parseFileRelative q

/-- Model of `.replaceAll(/\/+/g, '/')`: collapse every run of slashes to one. -/
def collapseChars : List Char → List Char
  | [] => []
  | [c] => [c]
  | c :: d :: rest =>
    if c = '/' && d = '/' then collapseChars (d :: rest)
    else c :: collapseChars (d :: rest)

/-- No two adjacent slashes anywhere in the character list. -/
def noDoubleSlashChars : List Char → Bool
  | [] => true
  | [_] => true
  | c :: d :: rest => !(c = '/' && d = '/') && noDoubleSlashChars (d :: rest)

/-- Model of `.replace(/\/+$/, '')`: drop every trailing slash. -/
def stripTrailingChars : List Char → List Char
  | [] => []
  | c :: rest =>
    match stripTrailingChars rest with
    | [] => if c = '/' then [] else [c]
    | r => c :: r

/-- The source's `normalize` (lines 256-261): URL pathname, slashes
collapsed, trailing slashes removed. -/
def normalize (s : String) : String :=
  String.mk (stripTrailingChars (collapseChars (urlPathname s.data)))

/-! ## Shared constants and JS string primitives -/

/-- The fixed updates root `UPDATES_DIRECTORY` (source line 23). -/
def UPDATES_DIRECTORY : String := "NoCloud/ionic_built_snapshots"

/-- JavaScript `String.prototype.startsWith`. -/
def jsStartsWith (s pat : String) : Bool := pat.data.isPrefixOf s.data

/-! ## World model for `updateCapacitor` (source lines 75-184) -/

/-- A Capacitor `ProgressStatus` download-progress event.  `bytes` is the
byte count transferred so far, `contentLength` the total size (0 models a
falsy/unknown value, as the code tests both with JS falsiness). -/
structure ProgressStatus where
  url : String
  bytes : ℚ
  contentLength : ℚ
  deriving DecidableEq, Repr

/-- A JSZip archive entry: its relative path, whether it is marked as a
directory, and the outcome of `zipEntry.async('base64')`. -/
structure ZipEntry where
  name : String
  dir : Bool
  data : Except String String
  deriving Repr

/-- The activation callback returned by `updateCapacitor`: it closes over
the `serverBasePath` value fixed at return time (source lines 172-175). -/
structure Activation where
  path : String
  deriving DecidableEq, Repr

/-- Host-runtime web-view state touched by the activation callback and the
persister: the served base path and the durably persisted path. -/
structure WebViewState where
  serverBasePath : String
  persistedBasePath : Option String
  deriving DecidableEq, Repr

/-- Capability calls and progress-callback invocations of one
`updateCapacitor` run, in order. -/
inductive UEvent where
  | addListener
  | downloadFile (url : String) (path : String)
  | progress (value : ℚ)
  | readFile (path : String)
  | writeFile (path : String) (recursive : Bool)
  | getUri (path : String)
  | deleteFile (path : String)
  deriving DecidableEq, Repr

/-- The environment of one `updateCapacitor` invocation: platform answers,
the generated UUID, and the outcome of every capability call the run makes.
`zipResult` is `JSZip().loadAsync` as a function of the base64 data read
back from disk; `writeResult` is `Filesystem.writeFile` per target path. -/
structure UWorld where
  isNative : Bool
  protocol : String
  url : String
  uuid : String
  downloadEvents : List ProgressStatus
  downloadResult : Except String Unit
  readResult : Except String String
  zipResult : String → Except String (List ZipEntry)
  writeResult : String → Except String Unit
  getUriResult : Except String String
  deleteResult : Except String Unit

/-- The progress listener body (source lines 104-108): events for other
URLs are ignored, a falsy `bytes` reports 0, and otherwise the code reports
`(contentLength || bytes) / bytes / 2`. -/
def listenerReport (reqUrl : String) (e : ProgressStatus) : Option ℚ :=
  if e.url ≠ reqUrl then none
  else if e.bytes = 0 then some 0
  else some ((if e.contentLength = 0 then e.bytes else e.contentLength) / e.bytes / 2)

/-- The extraction loop (source lines 136-156): for the entry at index
`idx` of `total` report `idx / total / 2 + 0.5` first, skip directory
entries, otherwise extract the base64 data and write the file (recursive)
under `UPDATES_DIRECTORY/<uuid>/<entry name>`. -/
def extractEntries (w : UWorld) (total : ℚ) : List ZipEntry → ℚ →
    Except String Unit × List UEvent
  | [], _ => (.ok (), [])
  | e :: rest, idx =>
    let pev := UEvent.progress (idx / total / 2 + 1 / 2)
    if e.dir then
      let (r, t) := extractEntries w total rest (idx + 1)
      (r, pev :: t)
    else
      match e.data with
      | .error msg => (.error msg, [pev])
      | .ok _ =>
        let path := UPDATES_DIRECTORY ++ "/" ++ w.uuid ++ "/" ++ e.name
        match w.writeResult path with
        | .error msg => (.error msg, [pev, UEvent.writeFile path true])
        | .ok _ =>
          let (r, t) := extractEntries w total rest (idx + 1)
          (r, pev :: UEvent.writeFile path true :: t)

/-- The body of the `try` block (source lines 100-175): register the
listener, download, read back, unzip, extract, resolve the staged
directory's URI and normalize it, report terminal progress 1.  Returns the
`serverBasePath` captured by the activation callback. -/
def updateBody (w : UWorld) (zipFileName : String) :
    Except String String × List UEvent :=
  let t0 : List UEvent :=
    UEvent.addListener :: UEvent.downloadFile w.url zipFileName ::
      w.downloadEvents.filterMap (fun e => (listenerReport w.url e).map UEvent.progress)
  match w.downloadResult with
  | .error msg => (.error msg, t0)
  | .ok _ =>
    let t1 := t0 ++ [UEvent.readFile zipFileName]
    match w.readResult with
    | .error msg => (.error msg, t1)
    | .ok data =>
      match w.zipResult data with
      | .error msg => (.error msg, t1)
      | .ok entries =>
        let (r, t2) := extractEntries w (entries.length : ℚ) entries 0
        match r with
        | .error msg => (.error msg, t1 ++ t2)
        | .ok _ =>
          let t3 := t1 ++ t2 ++ [UEvent.getUri (UPDATES_DIRECTORY ++ "/" ++ w.uuid)]
          match w.getUriResult with
          | .error msg => (.error msg, t3)
          | .ok uri => (.ok (normalize uri), t3 ++ [UEvent.progress 1])

/-- The updater `updateCapacitor` (source lines 75-184).  The two guards throw before
the `try` block; the `finally` block deletes the downloaded archive on
every exit path, and — per JavaScript semantics — an error thrown by the
deletion replaces the body's outcome. -/
def updateCapacitor (w : UWorld) : Except String Activation × List UEvent :=
  if !w.isNative then
    (.error "Update is only supported on native platforms", [])
  else if w.protocol ≠ "capacitor:" then
    (.error "Update is not supported in Capacitor LiveReload", [])
  else
    let zipFileName := "update-" ++ w.uuid ++ ".zip"
    let (r, t) := updateBody w zipFileName
    let t' := t ++ [UEvent.deleteFile zipFileName]
    match w.deleteResult with
    | .error msg => (.error msg, t')
    | .ok _ =>
      match r with
      | .error msg => (.error msg, t')
      | .ok sbp => (.ok { path := sbp }, t')

/-- Invoking the activation callback (source lines 172-175):
`WebView.setServerBasePath({ path: serverBasePath })`. -/
def applyActivation (a : Activation) (s : WebViewState) : WebViewState :=
  { s with serverBasePath := a.path }

/-- The values passed to the caller's progress callback, in order. -/
def progressValues (t : List UEvent) : List ℚ :=
  t.filterMap (fun e => match e with | .progress q => some q | _ => none)

/-- The `Filesystem.writeFile` calls of a trace, in order. -/
def writeEvents (t : List UEvent) : List UEvent :=
  t.filter (fun e => match e with | .writeFile _ _ => true | _ => false)

/-! ## World model for `persistUpdates` (source lines 196-254) -/

/-- A Capacitor `FileInfo` directory entry. -/
structure FileInfo where
  name : String
  type : String
  uri : String
  deriving DecidableEq, Repr

/-- Capability calls of one `persistUpdates` run, in order. -/
inductive PEvent where
  | getUri (path : String)
  | getServerBasePath
  | readdir (path : String)
  | rmdir (path : String) (recursive : Bool)
  | persistServerBasePath
  deriving DecidableEq, Repr

/-- The environment of one `persistUpdates` invocation. -/
structure PWorld where
  isNative : Bool
  protocol : String
  getUriResult : Except String String
  serverBasePathResult : Except String String
  readdirResult : Except String (List FileInfo)
  rmdirResult : String → Except String Unit
  persistResult : Except String Unit

/-- The deletion loop (source lines 232-243): skip non-directories, skip
the entry whose normalized URI equals the normalized served base path,
recursively remove every other directory.  An `rmdir` rejection is not
caught and aborts the loop. -/
def deleteLoop (w : PWorld) (path : String) : List FileInfo →
    Except String Unit × List PEvent
  | [] => (.ok (), [])
  | f :: rest =>
    if f.type ≠ "directory" then deleteLoop w path rest
    else if normalize path = normalize f.uri then deleteLoop w path rest
    else
      let p := UPDATES_DIRECTORY ++ "/" ++ f.name
      match w.rmdirResult p with
      | .error msg => (.error msg, [PEvent.rmdir p true])
      | .ok _ =>
        let (r, t) := deleteLoop w path rest
        (r, PEvent.rmdir p true :: t)

/-- The persister `persistUpdates` (source lines 196-254).  Only the `readdir` call is
wrapped in `try`/`catch` (treated as "no files"); every other capability
rejection propagates to the caller. -/
def persistUpdates (w : PWorld) : Except String Bool × List PEvent :=
  if !w.isNative then (.ok false, [])
  else if w.protocol ≠ "capacitor:" then (.ok false, [])
  else
    let t0 := [PEvent.getUri UPDATES_DIRECTORY]
    match w.getUriResult with
    | .error msg => (.error msg, t0)
    | .ok uri =>
      let serverBasePathPrefix := normalize uri
      let t1 := t0 ++ [PEvent.getServerBasePath]
      match w.serverBasePathResult with
      | .error msg => (.error msg, t1)
      | .ok path =>
        let t2 := t1 ++ [PEvent.readdir UPDATES_DIRECTORY]
        let files :=
          match w.readdirResult with
          | .error _ => []
          | .ok fs => fs
        let (r, t3) := deleteLoop w path files
        match r with
        | .error msg => (.error msg, t2 ++ t3)
        | .ok _ =>
          if jsStartsWith path serverBasePathPrefix then
            let t4 := t2 ++ t3 ++ [PEvent.persistServerBasePath]
            match w.persistResult with
            | .error msg => (.error msg, t4)
            | .ok _ => (.ok true, t4)
          else (.ok false, t2 ++ t3)

/-- The `rmdir` target paths of a trace, in order. -/
def rmdirPaths (t : List PEvent) : List String :=
  t.filterMap (fun e => match e with | .rmdir p _ => some p | _ => none)

/-- The number of `persistServerBasePath` calls in a trace. -/
def persistCalls (t : List PEvent) : Nat :=
  t.countP (fun e => e = PEvent.persistServerBasePath)

/-! ## Concrete environments used by witnesses and counterexamples -/

/-- A fully successful `updateCapacitor` environment. -/
def baseUWorld : UWorld where
  isNative := true
  protocol := "capacitor:"
  url := "https://example.test/update.zip"
  uuid := "u1"
  downloadEvents := []
  downloadResult := .ok ()
  readResult := .ok "emlwZGF0YQ=="
  zipResult := fun _ => .ok []
  writeResult := fun _ => .ok ()
  getUriResult := .ok "file:///Library/NoCloud/ionic_built_snapshots/u1"
  deleteResult := .ok ()

/-- The spec's example listing: child directories `AAA` and `BBB` of the
updates root. -/
def basePWorldFiles : List FileInfo :=
  [⟨"AAA", "directory", "file:///Library/NoCloud/ionic_built_snapshots/AAA"⟩,
   ⟨"BBB", "directory", "file:///Library/NoCloud/ionic_built_snapshots/BBB"⟩]

/-- The spec's persister example environment: served base path `.../AAA`,
updates root holding child directories `AAA` and `BBB`. -/
def basePWorld : PWorld where
  isNative := true
  protocol := "capacitor:"
  getUriResult := .ok "file:///Library/NoCloud/ionic_built_snapshots"
  serverBasePathResult := .ok "/Library/NoCloud/ionic_built_snapshots/AAA"
  readdirResult := .ok basePWorldFiles
  rmdirResult := fun _ => .ok ()
  persistResult := .ok ()

/-! ## C8: precondition gating -/

/-- C8: whenever the platform is not native or the origin scheme is not
`capacitor:`, `updateCapacitor` rejects and `persistUpdates` resolves to
`false`, both immediately and with an empty capability trace — no listener
registration, download, read, write, listing or deletion. -/
theorem c8_precondition_gating :
    (∀ w : UWorld, ¬(w.isNative = true ∧ w.protocol = "capacitor:") →
      ∃ msg, updateCapacitor w = (.error msg, [])) ∧
    (∀ w : PWorld, ¬(w.isNative = true ∧ w.protocol = "capacitor:") →
      persistUpdates w = (.ok false, [])) := by
  constructor
  · intro w h
    by_cases hn : w.isNative = true
    · have hp : w.protocol ≠ "capacitor:" := fun hp => h ⟨hn, hp⟩
      exact ⟨"Update is not supported in Capacitor LiveReload",
        by unfold updateCapacitor; simp [hn, hp]⟩
    · exact ⟨"Update is only supported on native platforms",
        by unfold updateCapacitor; simp [hn]⟩
  · intro w h
    unfold persistUpdates
    by_cases hn : w.isNative = true
    · have hp : w.protocol ≠ "capacitor:" := fun hp => h ⟨hn, hp⟩
      simp [hn, hp]
    · simp [hn]

/-- C8 witness: concrete non-native environments are gated. -/
theorem c8_precondition_gating_witness :
    (∃ msg, updateCapacitor { baseUWorld with isNative := false } = (.error msg, [])) ∧
    persistUpdates { basePWorld with isNative := false } = (.ok false, []) :=
  ⟨c8_precondition_gating.1 _ (by decide), c8_precondition_gating.2 _ (by decide)⟩

/-! ## C4: download-progress scaling (code bug) -/

/-- C4: the listener reports `(contentLength || bytes) / bytes / 2` — the
total size divided by the transferred count — instead of the documented
fraction transferred.  At 50 of 100 bytes it reports 1 (not 50/100/2 = 1/4,
and outside the claimed range [0, 0.5]), and at an unknown (zero) total it
reports 1/2, not the claimed 0. -/
theorem c4_progress_scaling_bug :
    listenerReport "https://example.test/update.zip"
        ⟨"https://example.test/update.zip", 50, 100⟩ = some 1 ∧
    listenerReport "https://example.test/update.zip"
        ⟨"https://example.test/update.zip", 50, 0⟩ = some (1 / 2) ∧
    ¬((1 : ℚ) ≤ 1 / 2) := by
  refine ⟨?_, ?_, by norm_num⟩ <;> · simp [listenerReport]; try norm_num

/-! ## C1: archive cleanup (corrected: a failed deletion masks the error) -/

/-- An environment whose read step and whose cleanup deletion both fail. -/
def c1World : UWorld :=
  { baseUWorld with
    readResult := .error "read failed"
    deleteResult := .error "delete failed" }

/-- C1 counterexample: the body fails with the read error, the cleanup
deletion also fails, and the call rejects with the deletion's error —
masking the original one, contrary to the claim. -/
theorem c1_cleanup_counterexample :
    (updateBody c1World "update-u1.zip").1 = .error "read failed" ∧
    (updateCapacitor c1World).1 = .error "delete failed" :=
  ⟨rfl, rfl⟩

/-- Running `updateCapacitor` past its guards: the body's outcome is
combined with the `finally` deletion, whose trace entry is always last. -/
theorem updateCapacitor_run (w : UWorld)
    (hn : w.isNative = true) (hp : w.protocol = "capacitor:")
    (r : Except String String) (t : List UEvent)
    (hb : updateBody w ("update-" ++ w.uuid ++ ".zip") = (r, t)) :
    updateCapacitor w =
      ((match w.deleteResult, r with
        | .error msg, _ => .error msg
        | .ok _, .error msg => .error msg
        | .ok _, .ok sbp => .ok ⟨sbp⟩),
       t ++ [UEvent.deleteFile ("update-" ++ w.uuid ++ ".zip")]) := by
  simp only [updateCapacitor, hn, hp, hb]
  cases w.deleteResult <;> cases r <;> simp

/-- C1 amended: past the precondition guards the cleanup deletion is
attempted on every exit path — the capability trace always ends with
`deleteFile` of the session archive — and when the deletion succeeds the
body's outcome (the activation callback or the original error) is
preserved; but when the deletion itself fails, its error replaces the
body's outcome (JavaScript `finally` semantics), rather than being
suppressed in favour of the original error. -/
theorem c1_cleanup_amended (w : UWorld)
    (hn : w.isNative = true) (hp : w.protocol = "capacitor:") :
    (updateCapacitor w).2.getLast? =
      some (UEvent.deleteFile ("update-" ++ w.uuid ++ ".zip")) ∧
    (∀ u, w.deleteResult = .ok u →
      (updateCapacitor w).1 =
        (updateBody w ("update-" ++ w.uuid ++ ".zip")).1.map Activation.mk) ∧
    (∀ msg, w.deleteResult = .error msg →
      (updateCapacitor w).1 = .error msg) := by
  rcases hb : updateBody w ("update-" ++ w.uuid ++ ".zip") with ⟨r, t⟩
  rw [updateCapacitor_run w hn hp r t hb]
  refine ⟨by simp [List.getLast?_concat], ?_, ?_⟩
  · intro u hd
    cases r <;> simp [hd, Except.map]
  · intro msg hd
    simp [hd]

/-- C1 amended, witness at `c1World`. -/
theorem c1_cleanup_amended_witness :
    (updateCapacitor c1World).2.getLast? =
      some (UEvent.deleteFile ("update-" ++ c1World.uuid ++ ".zip")) ∧
    (∀ u, c1World.deleteResult = .ok u →
      (updateCapacitor c1World).1 =
        (updateBody c1World ("update-" ++ c1World.uuid ++ ".zip")).1.map Activation.mk) ∧
    (∀ msg, c1World.deleteResult = .error msg →
      (updateCapacitor c1World).1 = .error msg) :=
  c1_cleanup_amended c1World rfl rfl

/-! ## C3: persister error handling (corrected: only `readdir` is caught) -/

/-- An environment whose `rmdir` capability rejects. -/
def c3World : PWorld :=
  { basePWorld with
    serverBasePathResult := .ok "/app/public"
    rmdirResult := fun _ => .error "rmdir failed" }

/-- C3 counterexample: with a served base path outside the updates root and
a rejecting `rmdir`, `persistUpdates` rejects with the `rmdir` error
instead of resolving to a boolean. -/
theorem c3_error_handling_counterexample :
    (persistUpdates c3World).1 = .error "rmdir failed" :=
  rfl

/-- With an always-succeeding `rmdir`, the deletion loop never fails and
its trace is one recursive `rmdir` per stale directory entry. -/
theorem deleteLoop_run (w : PWorld) (path : String) (fs : List FileInfo)
    (hrm : ∀ p, w.rmdirResult p = .ok ()) :
    deleteLoop w path fs =
      (.ok (), (fs.filter (fun f =>
          f.type == "directory" && !(normalize path == normalize f.uri))).map
        (fun f => PEvent.rmdir (UPDATES_DIRECTORY ++ "/" ++ f.name) true)) := by
  induction fs with
  | nil => rfl
  | cons f rest ih =>
    by_cases ht : f.type = "directory"
    · by_cases hvu : normalize path = normalize f.uri
      · simp [deleteLoop, ht, hvu, ih]
      · simp [deleteLoop, ht, hvu, hrm _, ih]
    · simp [deleteLoop, ht, ih]

/-- C3 amended: only errors of the directory listing are caught and treated
as "no files found" (the call still resolves to a boolean); an error from
any of the four other capabilities — URI resolution, the served-base-path
read, a directory deletion, or the durable persist — is not caught and
propagates that same error to the caller. -/
theorem c3_error_handling_amended :
    (∀ (w : PWorld) (msg uri path : String),
      w.isNative = true → w.protocol = "capacitor:" →
      w.getUriResult = .ok uri → w.serverBasePathResult = .ok path →
      w.readdirResult = .error msg → w.persistResult = .ok () →
      (persistUpdates w).1 = .ok (jsStartsWith path (normalize uri))) ∧
    (∀ (w : PWorld) (msg : String),
      w.isNative = true → w.protocol = "capacitor:" →
      w.getUriResult = .error msg →
      persistUpdates w = (.error msg, [PEvent.getUri UPDATES_DIRECTORY])) ∧
    (∀ (w : PWorld) (msg uri : String),
      w.isNative = true → w.protocol = "capacitor:" →
      w.getUriResult = .ok uri → w.serverBasePathResult = .error msg →
      persistUpdates w =
        (.error msg, [PEvent.getUri UPDATES_DIRECTORY, PEvent.getServerBasePath])) ∧
    (∀ (w : PWorld) (msg uri path : String) (fs : List FileInfo),
      w.isNative = true → w.protocol = "capacitor:" →
      w.getUriResult = .ok uri → w.serverBasePathResult = .ok path →
      w.readdirResult = .ok fs →
      (deleteLoop w path fs).1 = .error msg →
      (persistUpdates w).1 = .error msg) ∧
    (∀ (w : PWorld) (msg uri path : String) (fs : List FileInfo),
      w.isNative = true → w.protocol = "capacitor:" →
      w.getUriResult = .ok uri → w.serverBasePathResult = .ok path →
      w.readdirResult = .ok fs →
      (∀ p, w.rmdirResult p = .ok ()) →
      jsStartsWith path (normalize uri) = true →
      w.persistResult = .error msg →
      (persistUpdates w).1 = .error msg) := by
  refine ⟨?_, ?_, ?_, ?_, ?_⟩
  · intro w msg uri path hn hp hu hb hr hpe
    unfold persistUpdates
    simp only [hn, hp, hu, hb, hr]
    simp [deleteLoop]
    cases hs : jsStartsWith path (normalize uri) <;> simp [hs, hpe]
  · intro w msg hn hp hu
    unfold persistUpdates
    simp [hn, hp, hu]
  · intro w msg uri hn hp hu hb
    unfold persistUpdates
    simp [hn, hp, hu, hb]
  · intro w msg uri path fs hn hp hu hb hf hl
    unfold persistUpdates
    simp only [hn, hp, hu, hb, hf]
    rcases hL : deleteLoop w path fs with ⟨r, t3⟩
    rw [hL] at hl
    simp only at hl
    subst hl
    simp
  · intro w msg uri path fs hn hp hu hb hf hrm hs hpe
    unfold persistUpdates
    simp only [hn, hp, hu, hb, hf]
    rw [deleteLoop_run w path fs hrm]
    simp [hs, hpe]

/-- C3 amended, witness: a failing listing still resolves to a boolean,
while a failing URI resolution, served-base-path read, directory deletion,
or durable persist each reject with their own error. -/
theorem c3_error_handling_amended_witness :
    (persistUpdates { basePWorld with readdirResult := .error "no dir" }).1 =
      .ok (jsStartsWith "/Library/NoCloud/ionic_built_snapshots/AAA"
        (normalize "file:///Library/NoCloud/ionic_built_snapshots")) ∧
    persistUpdates { basePWorld with getUriResult := .error "no uri" } =
      (.error "no uri", [PEvent.getUri UPDATES_DIRECTORY]) ∧
    persistUpdates { basePWorld with serverBasePathResult := .error "no sbp" } =
      (.error "no sbp",
        [PEvent.getUri UPDATES_DIRECTORY, PEvent.getServerBasePath]) ∧
    (persistUpdates c3World).1 = .error "rmdir failed" ∧
    (persistUpdates { basePWorld with
      persistResult := .error "persist failed" }).1 = .error "persist failed" :=
  ⟨c3_error_handling_amended.1 _ "no dir" _ _ rfl rfl rfl rfl rfl rfl,
   c3_error_handling_amended.2.1 _ "no uri" rfl rfl rfl,
   c3_error_handling_amended.2.2.1 _ "no sbp" _ rfl rfl rfl rfl,
   c3_error_handling_amended.2.2.2.1 c3World "rmdir failed" _ "/app/public"
     basePWorldFiles rfl rfl rfl rfl rfl rfl,
   c3_error_handling_amended.2.2.2.2 _ "persist failed" _
     "/Library/NoCloud/ionic_built_snapshots/AAA" basePWorldFiles
     rfl rfl rfl rfl rfl (fun _ => rfl) (by decide) rfl⟩

/-! ## C10: the activation callback -/

/-- A successful body run resolved the staged directory's URI and captured
its normalization as the served base path. -/
theorem updateBody_ok (w : UWorld) (zipName sbp : String)
    (h : (updateBody w zipName).1 = .ok sbp) :
    ∃ uri, w.getUriResult = .ok uri ∧ sbp = normalize uri := by
  unfold updateBody at h
  cases hd : w.downloadResult with
  | error msg => simp [hd] at h
  | ok _ =>
  cases hr : w.readResult with
  | error msg => simp [hd, hr] at h
  | ok data =>
  cases hz : w.zipResult data with
  | error msg => simp [hd, hr, hz] at h
  | ok entries =>
  rcases hE : extractEntries w (entries.length : ℚ) entries 0 with ⟨r, t⟩
  cases r with
  | error msg => simp [hd, hr, hz, hE] at h
  | ok _ =>
  cases hu : w.getUriResult with
  | error msg => simp [hd, hr, hz, hE, hu] at h
  | ok uri =>
    simp [hd, hr, hz, hE, hu] at h
    exact ⟨uri, rfl, h.symm⟩

/-- C10: a successful `updateCapacitor` call returns an activation callback
closing over the normalized staged-directory path fixed at return time;
invoking it sets the served base path to that same path and changes no
other web-view state, so repeated invocation is idempotent. -/
theorem c10_activation_idempotent (w : UWorld) (a : Activation)
    (h : (updateCapacitor w).1 = .ok a) :
    (∃ uri, w.getUriResult = .ok uri ∧ a.path = normalize uri) ∧
    (∀ s : WebViewState,
      applyActivation a s = { s with serverBasePath := a.path } ∧
      applyActivation a (applyActivation a s) = applyActivation a s ∧
      (applyActivation a s).persistedBasePath = s.persistedBasePath) := by
  refine ⟨?_, fun s => ⟨rfl, rfl, rfl⟩⟩
  by_cases hn : w.isNative = true
  · by_cases hp : w.protocol = "capacitor:"
    · rcases hb : updateBody w ("update-" ++ w.uuid ++ ".zip") with ⟨r, t⟩
      rw [updateCapacitor_run w hn hp r t hb] at h
      cases hdel : w.deleteResult with
      | error msg => simp [hdel] at h
      | ok _ =>
        cases r with
        | error msg => simp [hdel] at h
        | ok sbp =>
          simp [hdel] at h
          obtain ⟨uri, hu, he⟩ := updateBody_ok w _ sbp (by rw [hb])
          exact ⟨uri, hu, by rw [← h, he]⟩
    · unfold updateCapacitor at h
      simp [hn, hp] at h
  · unfold updateCapacitor at h
    simp [hn] at h

/-- C10 witness: the fully successful concrete run returns the callback
over the normalized staged path, and that callback is idempotent. -/
theorem c10_activation_idempotent_witness :
    (∃ uri, baseUWorld.getUriResult = .ok uri ∧
      (Activation.mk "/Library/NoCloud/ionic_built_snapshots/u1").path = normalize uri) ∧
    (∀ s : WebViewState,
      applyActivation ⟨"/Library/NoCloud/ionic_built_snapshots/u1"⟩ s =
        { s with serverBasePath :=
            (Activation.mk "/Library/NoCloud/ionic_built_snapshots/u1").path } ∧
      applyActivation ⟨"/Library/NoCloud/ionic_built_snapshots/u1"⟩
          (applyActivation ⟨"/Library/NoCloud/ionic_built_snapshots/u1"⟩ s) =
        applyActivation ⟨"/Library/NoCloud/ionic_built_snapshots/u1"⟩ s ∧
      (applyActivation ⟨"/Library/NoCloud/ionic_built_snapshots/u1"⟩ s).persistedBasePath =
        s.persistedBasePath) :=
  c10_activation_idempotent baseUWorld ⟨"/Library/NoCloud/ionic_built_snapshots/u1"⟩ rfl

/-! ## C5: the persist decision -/

/-- A pure-`rmdir` trace contains no durable-persist call. -/
theorem persistCalls_rmdirs (l : List FileInfo) (pth : FileInfo → String) :
    persistCalls (l.map (fun f => PEvent.rmdir (pth f) true)) = 0 := by
  simp [persistCalls, List.countP_eq_zero]

/-- C5: when the run completes, `persistUpdates` resolves to `true` exactly
when the (already normalized) served base path starts with the normalized
updates-root path, in which case durable persist is invoked exactly once;
otherwise it resolves to `false` with no durable-persist call. -/
theorem c5_persist_decision (w : PWorld) (uri path : String)
    (hn : w.isNative = true) (hp : w.protocol = "capacitor:")
    (hu : w.getUriResult = .ok uri) (hb : w.serverBasePathResult = .ok path)
    (hrm : ∀ p, w.rmdirResult p = .ok ()) (hpers : w.persistResult = .ok ())
    (hnorm : normalize path = path) :
    ((persistUpdates w).1 = .ok true ↔
      jsStartsWith (normalize path) (normalize uri) = true) ∧
    ((persistUpdates w).1 = .ok false ↔
      jsStartsWith (normalize path) (normalize uri) = false) ∧
    persistCalls (persistUpdates w).2 =
      (if jsStartsWith (normalize path) (normalize uri) then 1 else 0) := by
  unfold persistUpdates
  simp only [hn, hp, hu, hb]
  rw [deleteLoop_run w path _ hrm]
  rw [hnorm]
  cases hs : jsStartsWith path (normalize uri) <;>
    simp [hs, hpers, persistCalls, List.countP_append, persistCalls_rmdirs,
      List.countP_eq_zero]

/-- C5 witness at the spec's example environment: the served path `.../AAA`
lies under the updates root, so the run persists once and returns `true`. -/
theorem c5_persist_decision_witness :
    ((persistUpdates basePWorld).1 = .ok true ↔
      jsStartsWith (normalize "/Library/NoCloud/ionic_built_snapshots/AAA")
        (normalize "file:///Library/NoCloud/ionic_built_snapshots") = true) ∧
    ((persistUpdates basePWorld).1 = .ok false ↔
      jsStartsWith (normalize "/Library/NoCloud/ionic_built_snapshots/AAA")
        (normalize "file:///Library/NoCloud/ionic_built_snapshots") = false) ∧
    persistCalls (persistUpdates basePWorld).2 =
      (if jsStartsWith (normalize "/Library/NoCloud/ionic_built_snapshots/AAA")
          (normalize "file:///Library/NoCloud/ionic_built_snapshots") then 1 else 0) :=
  c5_persist_decision basePWorld _ _ rfl rfl rfl rfl (fun _ => rfl) rfl (by decide)

/-! ## C2: at most one staged directory at rest -/

/-- The directory entries of a listing whose recursive removal the trace
never requested: what remains in the updates root after the run. -/
def survivingDirs (fs : List FileInfo) (t : List PEvent) : List FileInfo :=
  fs.filter (fun f => f.type == "directory" &&
    !((rmdirPaths t).contains (UPDATES_DIRECTORY ++ "/" ++ f.name)))

/-- Appending to a fixed string is injective. -/
theorem string_append_cancel (a b c : String) (h : a ++ b = a ++ c) : b = c := by
  have h2 : a.data ++ b.data = a.data ++ c.data := by
    have := congrArg String.data h
    simpa [String.data_append] using this
  have h3 : b.data = c.data := List.append_cancel_left h2
  cases b
  cases c
  exact congrArg String.mk h3

/-- In a list whose image under `g` has no duplicates, at most one element
maps to any given value. -/
theorem length_filter_le_one_of_nodup_map {α β : Type} [DecidableEq β]
    (l : List α) (g : α → β) (c : β) (h : (l.map g).Nodup) :
    (l.filter (fun x => g x == c)).length ≤ 1 := by
  induction l with
  | nil => simp
  | cons a t ih =>
    simp only [List.map_cons, List.nodup_cons] at h
    obtain ⟨hna, ht⟩ := h
    by_cases hc : g a = c
    · have hnil : t.filter (fun x => g x == c) = [] := by
        refine List.filter_eq_nil_iff.2 fun x hx => ?_
        simp only [beq_iff_eq]
        intro hgx
        exact hna (hc ▸ hgx ▸ List.mem_map_of_mem g hx)
      simp [List.filter_cons, hc, hnil]
    · simp [List.filter_cons, hc, ih ht]

/-- Extracting the `rmdir` targets from a pure-`rmdir` trace recovers the
target paths. -/
theorem filterMap_rmdir_comp (l : List FileInfo) (pth : FileInfo → String) :
    List.filterMap
      ((fun e => match e with
        | PEvent.rmdir p _ => some p
        | _ => none) ∘ fun f => PEvent.rmdir (pth f) true) l = l.map pth := by
  induction l with
  | nil => rfl
  | cons a t ih => simp [List.filterMap_cons, Function.comp, ih]

/-- The removal requests of a completed persister run are exactly the stale
directory entries' root-relative paths. -/
theorem persistUpdates_rmdirPaths (w : PWorld) (uri path : String)
    (fs : List FileInfo)
    (hn : w.isNative = true) (hp : w.protocol = "capacitor:")
    (hu : w.getUriResult = .ok uri) (hb : w.serverBasePathResult = .ok path)
    (hf : w.readdirResult = .ok fs)
    (hrm : ∀ p, w.rmdirResult p = .ok ()) (hpers : w.persistResult = .ok ()) :
    rmdirPaths (persistUpdates w).2 =
      (fs.filter (fun f =>
          f.type == "directory" && !(normalize path == normalize f.uri))).map
        (fun f => UPDATES_DIRECTORY ++ "/" ++ f.name) := by
  unfold persistUpdates
  simp only [hn, hp, hu, hb, hf]
  rw [deleteLoop_run w path fs hrm]
  cases hs : jsStartsWith path (normalize uri) <;>
    simp [hs, hpers, rmdirPaths, List.filterMap_append, List.filterMap_map,
      filterMap_rmdir_comp]

/-- C2: after a completed persister run, at most one directory entry of the
updates root survives, and a surviving one's normalized URI equals the
(already normalized) served base path; every other child directory was
removed recursively. -/
theorem c2_at_most_one_staged (w : PWorld) (uri path : String)
    (fs : List FileInfo)
    (hn : w.isNative = true) (hp : w.protocol = "capacitor:")
    (hu : w.getUriResult = .ok uri) (hb : w.serverBasePathResult = .ok path)
    (hf : w.readdirResult = .ok fs)
    (hrm : ∀ p, w.rmdirResult p = .ok ()) (hpers : w.persistResult = .ok ())
    (hnorm : normalize path = path)
    (hnames : (fs.map FileInfo.name).Nodup)
    (hinj : ((fs.filter (fun f => f.type == "directory")).map
        (fun f => normalize f.uri)).Nodup) :
    (survivingDirs fs (persistUpdates w).2).length ≤ 1 ∧
    ∀ f ∈ survivingDirs fs (persistUpdates w).2, normalize f.uri = path := by
  have hpaths := persistUpdates_rmdirPaths w uri path fs hn hp hu hb hf hrm hpers
  have hmem : ∀ f ∈ fs, f.type = "directory" →
      ((UPDATES_DIRECTORY ++ "/" ++ f.name) ∈ rmdirPaths (persistUpdates w).2 ↔
        ¬(normalize path = normalize f.uri)) := by
    intro f hfm ht
    rw [hpaths]
    simp only [List.mem_map]
    constructor
    · rintro ⟨g, hg, hgp⟩
      have hgf : g.name = f.name :=
        string_append_cancel (UPDATES_DIRECTORY ++ "/") _ _ hgp
      have hgm : g ∈ fs := (List.mem_filter.1 hg).1
      have hge : g = f := List.inj_on_of_nodup_map hnames hgm hfm hgf
      subst hge
      have hcond := (List.mem_filter.1 hg).2
      simp only [Bool.and_eq_true, beq_iff_eq, Bool.not_eq_true',
        beq_eq_false_iff_ne, ne_eq] at hcond
      exact hcond.2
    · intro hne
      refine ⟨f, List.mem_filter.2 ⟨hfm, ?_⟩, rfl⟩
      simp [ht, hne]
  have hsurv : survivingDirs fs (persistUpdates w).2 =
      fs.filter (fun f => f.type == "directory" && (normalize f.uri == normalize path)) := by
    unfold survivingDirs
    refine List.filter_congr fun f hfm => ?_
    by_cases ht : f.type = "directory"
    · have hbe : (f.type == "directory") = true := by simp [ht]
      rw [hbe]
      simp only [Bool.true_and]
      refine Bool.eq_iff_iff.2 ?_
      simp only [List.contains, List.elem_eq_mem, Bool.not_eq_true',
        decide_eq_false_iff_not, beq_iff_eq]
      rw [hmem f hfm ht, not_not]
      exact ⟨Eq.symm, Eq.symm⟩
    · have hbe : (f.type == "directory") = false := by simp [ht]
      rw [hbe]
      simp
  rw [hsurv]
  constructor
  · have hff : fs.filter (fun f => f.type == "directory" &&
        (normalize f.uri == normalize path)) =
        (fs.filter (fun f => f.type == "directory")).filter
          (fun f => normalize f.uri == normalize path) := by
      rw [List.filter_filter]
      refine List.filter_congr fun f _ => ?_
      rcases hd : (f.type == "directory") <;>
        rcases he : (normalize f.uri == normalize path) <;> simp [hd, he]
    rw [hff]
    exact length_filter_le_one_of_nodup_map
      (fs.filter (fun f => f.type == "directory"))
      (fun f => normalize f.uri) (normalize path) hinj
  · intro f hfm
    have hcond := (List.mem_filter.1 hfm).2
    simp only [Bool.and_eq_true, beq_iff_eq] at hcond
    rw [hcond.2, hnorm]

/-- C2 witness at the spec's example environment: of the children `AAA`
and `BBB`, only `AAA` (the served path) survives the run. -/
theorem c2_at_most_one_staged_witness :
    (survivingDirs
        ([⟨"AAA", "directory", "file:///Library/NoCloud/ionic_built_snapshots/AAA"⟩,
          ⟨"BBB", "directory", "file:///Library/NoCloud/ionic_built_snapshots/BBB"⟩] :
          List FileInfo)
        (persistUpdates basePWorld).2).length ≤ 1 ∧
    ∀ f : FileInfo, f ∈ survivingDirs
        ([⟨"AAA", "directory", "file:///Library/NoCloud/ionic_built_snapshots/AAA"⟩,
          ⟨"BBB", "directory", "file:///Library/NoCloud/ionic_built_snapshots/BBB"⟩] :
          List FileInfo)
        (persistUpdates basePWorld).2 →
      normalize f.uri = "/Library/NoCloud/ionic_built_snapshots/AAA" :=
  c2_at_most_one_staged basePWorld _ _ _ rfl rfl rfl rfl rfl (fun _ => rfl) rfl
    (by decide) (by decide) (by decide)

/-! ## C6: the extraction writes exactly the file entries -/

/-- When every non-directory entry's data extraction and every write
succeeds, the loop succeeds and its write calls are exactly one recursive
write per non-directory entry, at the staged path of the entry's name. -/
theorem extractEntries_run (w : UWorld) (total : ℚ) (entries : List ZipEntry)
    (hdata : ∀ e ∈ entries, e.dir = false → ∃ s, e.data = .ok s)
    (hw : ∀ p, w.writeResult p = .ok ()) :
    ∀ idx, (extractEntries w total entries idx).1 = .ok () ∧
      writeEvents (extractEntries w total entries idx).2 =
        (entries.filter (fun e => !e.dir)).map
          (fun e => UEvent.writeFile
            (UPDATES_DIRECTORY ++ "/" ++ w.uuid ++ "/" ++ e.name) true) := by
  induction entries with
  | nil => exact fun idx => ⟨rfl, rfl⟩
  | cons e rest ih =>
    intro idx
    have hdr : ∀ e' ∈ rest, e'.dir = false → ∃ s, e'.data = .ok s :=
      fun e' he' => hdata e' (List.mem_cons_of_mem _ he')
    rcases hE : extractEntries w total rest (idx + 1) with ⟨r, t⟩
    have ihh := ih hdr (idx + 1)
    rw [hE] at ihh
    by_cases hdir : e.dir
    · simpa [extractEntries, hdir, hE, writeEvents, List.filter_cons] using ihh
    · obtain ⟨s, hs⟩ := hdata e (List.mem_cons_self e rest) (by simpa using hdir)
      simpa [extractEntries, hdir, hs, hw _, hE, writeEvents, List.filter_cons]
        using ihh

@[simp] theorem writeEvents_nil : writeEvents [] = [] := rfl

@[simp] theorem writeEvents_append (a b : List UEvent) :
    writeEvents (a ++ b) = writeEvents a ++ writeEvents b :=
  List.filter_append a b

@[simp] theorem writeEvents_cons_addListener (t : List UEvent) :
    writeEvents (UEvent.addListener :: t) = writeEvents t := rfl

@[simp] theorem writeEvents_cons_download (u p : String) (t : List UEvent) :
    writeEvents (UEvent.downloadFile u p :: t) = writeEvents t := rfl

@[simp] theorem writeEvents_cons_progress (q : ℚ) (t : List UEvent) :
    writeEvents (UEvent.progress q :: t) = writeEvents t := rfl

@[simp] theorem writeEvents_cons_read (p : String) (t : List UEvent) :
    writeEvents (UEvent.readFile p :: t) = writeEvents t := rfl

@[simp] theorem writeEvents_cons_getUri (p : String) (t : List UEvent) :
    writeEvents (UEvent.getUri p :: t) = writeEvents t := rfl

@[simp] theorem writeEvents_cons_delete (p : String) (t : List UEvent) :
    writeEvents (UEvent.deleteFile p :: t) = writeEvents t := rfl

@[simp] theorem writeEvents_cons_write (p : String) (b : Bool) (t : List UEvent) :
    writeEvents (UEvent.writeFile p b :: t) =
      UEvent.writeFile p b :: writeEvents t := rfl

/-- The download-progress reports contain no write calls. -/
theorem writeEvents_progressOnly (u : String) (evs : List ProgressStatus) :
    writeEvents (evs.filterMap
      (fun e => (listenerReport u e).map UEvent.progress)) = [] := by
  induction evs with
  | nil => rfl
  | cons ev t ih =>
    cases h : listenerReport u ev with
    | none => simpa [List.filterMap_cons, h] using ih
    | some q => simpa [List.filterMap_cons, h] using ih

/-- The full capability trace of the body, for a run whose download, read
and unzip steps succeed. -/
theorem updateBody_trace (w : UWorld) (zipName d : String)
    (entries : List ZipEntry) (r : Except String Unit) (t2 : List UEvent)
    (hdl : w.downloadResult = .ok ()) (hrd : w.readResult = .ok d)
    (hz : w.zipResult d = .ok entries)
    (hE : extractEntries w (entries.length : ℚ) entries 0 = (r, t2)) :
    (updateBody w zipName).2 =
      (UEvent.addListener :: UEvent.downloadFile w.url zipName ::
        w.downloadEvents.filterMap
          (fun e => (listenerReport w.url e).map UEvent.progress)) ++
      [UEvent.readFile zipName] ++ t2 ++
      (match r, w.getUriResult with
        | .ok _, .ok _ =>
          [UEvent.getUri (UPDATES_DIRECTORY ++ "/" ++ w.uuid), UEvent.progress 1]
        | .ok _, .error _ =>
          [UEvent.getUri (UPDATES_DIRECTORY ++ "/" ++ w.uuid)]
        | .error _, _ => []) := by
  unfold updateBody
  simp only [hdl, hrd, hz, hE]
  cases r <;> cases hu : w.getUriResult <;> simp [hu, List.append_assoc]

/-- The write calls of the whole body are those of the extraction loop:
the download, read, unzip, URI and progress steps write nothing. -/
theorem updateBody_writes (w : UWorld) (zipName d : String)
    (entries : List ZipEntry)
    (hdl : w.downloadResult = .ok ()) (hrd : w.readResult = .ok d)
    (hz : w.zipResult d = .ok entries)
    (hdata : ∀ e ∈ entries, e.dir = false → ∃ s, e.data = .ok s)
    (hw : ∀ p, w.writeResult p = .ok ()) :
    writeEvents (updateBody w zipName).2 =
      (entries.filter (fun e => !e.dir)).map
        (fun e => UEvent.writeFile
          (UPDATES_DIRECTORY ++ "/" ++ w.uuid ++ "/" ++ e.name) true) := by
  obtain ⟨hok, hwr⟩ := extractEntries_run w (entries.length : ℚ) entries hdata hw 0
  rcases hE : extractEntries w (entries.length : ℚ) entries 0 with ⟨r, t2⟩
  rw [hE] at hok hwr
  simp only at hok hwr
  rw [updateBody_trace w zipName d entries r t2 hdl hrd hz hE]
  subst hok
  cases hu : w.getUriResult <;>
    simp [writeEvents_progressOnly, hwr]

/-- C6: a run whose download, read, unzip and writes all succeed writes
exactly the non-directory entries of the archive, each to
`<updates-root>/<session-id>/<entry name>` with recursive directory
creation, and skips every directory entry. -/
theorem c6_writes_exactly_files (w : UWorld) (d : String)
    (entries : List ZipEntry)
    (hn : w.isNative = true) (hp : w.protocol = "capacitor:")
    (hdl : w.downloadResult = .ok ()) (hrd : w.readResult = .ok d)
    (hz : w.zipResult d = .ok entries)
    (hdata : ∀ e ∈ entries, e.dir = false → ∃ s, e.data = .ok s)
    (hw : ∀ p, w.writeResult p = .ok ()) :
    writeEvents (updateCapacitor w).2 =
      (entries.filter (fun e => !e.dir)).map
        (fun e => UEvent.writeFile
          (UPDATES_DIRECTORY ++ "/" ++ w.uuid ++ "/" ++ e.name) true) := by
  rcases hb : updateBody w ("update-" ++ w.uuid ++ ".zip") with ⟨r, t⟩
  rw [updateCapacitor_run w hn hp r t hb]
  have hW := updateBody_writes w ("update-" ++ w.uuid ++ ".zip") d entries
    hdl hrd hz hdata hw
  rw [hb] at hW
  simp only at hW
  simpa using hW

/-- C6 witness: the spec's example archive — `index.html`,
`assets/app.js`, and the directory entry `assets/` — yields exactly the
two file writes. -/
theorem c6_writes_exactly_files_witness :
    writeEvents (updateCapacitor { baseUWorld with
      zipResult := fun _ => .ok
        [⟨"index.html", false, .ok "aGk="⟩,
         ⟨"assets/app.js", false, .ok "anM="⟩,
         ⟨"assets/", true, .ok ""⟩] }).2 =
      (([⟨"index.html", false, .ok "aGk="⟩,
         ⟨"assets/app.js", false, .ok "anM="⟩,
         ⟨"assets/", true, .ok ""⟩] : List ZipEntry).filter (fun e => !e.dir)).map
        (fun e => UEvent.writeFile
          (UPDATES_DIRECTORY ++ "/" ++ "u1" ++ "/" ++ e.name) true) :=
  c6_writes_exactly_files _ "emlwZGF0YQ==" _ rfl rfl rfl rfl rfl
    (by
      intro e he hd
      fin_cases he
      · exact ⟨"aGk=", rfl⟩
      · exact ⟨"anM=", rfl⟩
      · exact absurd hd (by decide))
    (fun _ => rfl)

/-! ## C7: the progress profile of a successful run -/

/-- An otherwise fully successful environment whose download emits three
matching progress events (10 of 100 bytes, then 50 of 100, then 100 of 100)
and whose archive holds a single file entry. -/
def c7World : UWorld :=
  { baseUWorld with
    downloadEvents :=
      [⟨baseUWorld.url, 10, 100⟩, ⟨baseUWorld.url, 50, 100⟩,
       ⟨baseUWorld.url, 100, 100⟩]
    zipResult := fun _ => .ok [⟨"index.html", false, .ok "aGk="⟩] }

/-- C7: the successful concrete run reports the progress sequence
`[5, 1, 1/2, 1/2, 1]`: the download phase (first three values, produced by
the inverted division of C4) starts above 1 and decreases towards 0.5
instead of rising through [0, 0.5), so the sequence is neither
non-decreasing nor within [0, 1]; the extraction-phase value
(`0.5 + 0/1/2`) and the terminal 1 behave as claimed. -/
theorem c7_progress_profile_bug :
    progressValues (updateCapacitor c7World).2 = [5, 1, 1 / 2, 1 / 2, 1] ∧
    (∃ a, (updateCapacitor c7World).1 = .ok a) ∧
    ¬ List.Chain' (· ≤ ·) ((5 : ℚ) :: [1, 1 / 2, 1 / 2, 1]) ∧
    ¬ ((5 : ℚ) ≤ 1) := by
  refine ⟨?_,
    ⟨⟨normalize "file:///Library/NoCloud/ionic_built_snapshots/u1"⟩, rfl⟩,
    ?_, by norm_num⟩
  · norm_num [progressValues, c7World, baseUWorld, updateCapacitor,
      updateBody, extractEntries, listenerReport, List.filterMap_cons]
  · intro h
    rw [List.chain'_cons] at h
    exact absurd h.1 (by norm_num)

/-! ## C9: algebraic properties of `normalize` -/

/-- Collapsing preserves the head character. -/
theorem collapseChars_head (x : Char) (xs : List Char) :
    (collapseChars (x :: xs)).head? = some x := by
  induction xs generalizing x with
  | nil => rfl
  | cons d rest ih =>
    by_cases h : x = '/' && d = '/'
    · obtain ⟨hx, hd⟩ : x = '/' ∧ d = '/' := by simpa using h
      rw [collapseChars, if_pos h, ih d, hx, hd]
    · rw [collapseChars, if_neg h]
      rfl

/-- The collapsed list never contains two adjacent slashes. -/
theorem collapseChars_noDS (cs : List Char) :
    noDoubleSlashChars (collapseChars cs) = true := by
  induction cs with
  | nil => rfl
  | cons c rest ih =>
    cases rest with
    | nil => rfl
    | cons d rest2 =>
      by_cases h : c = '/' && d = '/'
      · rw [collapseChars, if_pos h]
        exact ih
      · rw [collapseChars, if_neg h]
        have hh := collapseChars_head d rest2
        cases hc : collapseChars (d :: rest2) with
        | nil => rfl
        | cons e t =>
          rw [hc] at hh
          have he : e = d := by simpa using hh
          subst he
          rw [noDoubleSlashChars]
          simp only [Bool.and_eq_true]
          have h' : ¬(c = '/' ∧ e = '/') := by simpa using h
          refine ⟨?_, by rw [← hc]; exact ih⟩
          by_cases hcs : c = '/'
          · have hds : ¬e = '/' := fun hds => h' ⟨hcs, hds⟩
            simp [hcs, hds]
          · simp [hcs]

/-- Stripping trailing slashes returns the empty list or keeps the head. -/
theorem stripTrailingChars_head (c : Char) (t : List Char) :
    stripTrailingChars (c :: t) = [] ∨
    ∃ r, stripTrailingChars (c :: t) = c :: r := by
  rw [stripTrailingChars]
  cases h : stripTrailingChars t with
  | nil =>
    by_cases hc : c = '/'
    · exact Or.inl (by simp [hc])
    · exact Or.inr ⟨[], by simp [hc]⟩
  | cons d r => exact Or.inr ⟨d :: r, rfl⟩

/-- Stripping trailing slashes preserves slash-run-freeness. -/
theorem stripTrailingChars_noDS (cs : List Char)
    (h : noDoubleSlashChars cs = true) :
    noDoubleSlashChars (stripTrailingChars cs) = true := by
  induction cs with
  | nil => rfl
  | cons c t ih =>
    have hnt : noDoubleSlashChars t = true := by
      cases t with
      | nil => rfl
      | cons d t2 => exact (Bool.and_eq_true_iff.1 h).2
    rw [stripTrailingChars]
    cases hs : stripTrailingChars t with
    | nil =>
      by_cases hc : c = '/' <;> simp [hc, noDoubleSlashChars]
    | cons d r =>
      cases t with
      | nil => simp [stripTrailingChars] at hs
      | cons t0 t2 =>
        rcases stripTrailingChars_head t0 t2 with h2 | h2
        · rw [h2] at hs
          exact absurd hs (by simp)
        · obtain ⟨r2, h2⟩ := h2
          rw [h2] at hs
          have hd : d = t0 := (List.cons.injEq _ _ _ _ ▸ hs).1.symm
          subst hd
          rw [noDoubleSlashChars]
          simp only [Bool.and_eq_true]
          refine ⟨?_, by rw [← hs, ← h2]; exact ih hnt⟩
          have hp := (Bool.and_eq_true_iff.1 h).1
          simpa using hp

/-- The stripped list never ends with a slash. -/
theorem stripTrailingChars_last (cs : List Char) :
    ∀ c, (stripTrailingChars cs).getLast? = some c → c ≠ '/' := by
  induction cs with
  | nil => intro c h; simp [stripTrailingChars] at h
  | cons a t ih =>
    intro c h
    rw [stripTrailingChars] at h
    cases hs : stripTrailingChars t with
    | nil =>
      rw [hs] at h
      by_cases ha : a = '/'
      · simp [ha] at h
      · simp [ha] at h
        subst h
        exact ha
    | cons d r =>
      rw [hs] at h
      rw [List.getLast?_cons_cons] at h
      exact ih c (hs ▸ h)

/-- Taking while a predicate holds keeps a list all of whose elements satisfy it. -/
theorem takeWhile_all {p : Char → Bool} (l : List Char)
    (h : ∀ a ∈ l, p a = true) : l.takeWhile p = l := by
  induction l with
  | nil => rfl
  | cons a t ih =>
    simp [List.takeWhile_cons, h a (List.mem_cons_self a t),
      ih (fun b hb => h b (List.mem_cons_of_mem a hb))]

/-- Splitting always produces at least one chunk. -/
theorem splitSeps_ne_nil (isSep : Char → Bool) (cs : List Char) :
    splitSeps isSep cs ≠ [] := by
  cases cs with
  | nil => simp [splitSeps]
  | cons c rest =>
    rw [splitSeps]
    by_cases h : isSep c
    · simp [h]
    · simp only [h]
      cases hs : splitSeps isSep rest <;> simp

/-- Separator predicates agreeing on the list split it identically. -/
theorem splitSeps_congr (s1 s2 : Char → Bool) (cs : List Char)
    (h : ∀ c ∈ cs, s1 c = s2 c) : splitSeps s1 cs = splitSeps s2 cs := by
  induction cs with
  | nil => rfl
  | cons c rest ih =>
    rw [splitSeps, splitSeps, h c (List.mem_cons_self c rest),
      ih (fun b hb => h b (List.mem_cons_of_mem c hb))]

/-- Serialization distributes over the head chunk. -/
theorem serializeAbs_cons (s : List Char) (t : List (List Char)) :
    serializeAbs (s :: t) = ('/' :: s) ++ serializeAbs t := by
  simp [serializeAbs]

/-- Serializing the slash-split of a list restores it, slash-prefixed. -/
theorem serializeAbs_splitSeps (cs : List Char) :
    serializeAbs (splitSeps (fun c => c = '/') cs) = '/' :: cs := by
  induction cs with
  | nil => rfl
  | cons c rest ih =>
    rw [splitSeps]
    by_cases h : c = '/'
    · subst h
      rw [if_pos (by simp), serializeAbs_cons, ih]
      rfl
    · rw [if_neg (by simp [h])]
      cases hs : splitSeps (fun c => decide (c = '/')) rest with
      | nil => exact absurd hs (splitSeps_ne_nil _ rest)
      | cons h0 t0 =>
        rw [hs] at ih
        rw [serializeAbs_cons] at ih
        have ih2 : h0 ++ serializeAbs t0 = rest := by simpa using ih
        show serializeAbs ((c :: h0) :: t0) = '/' :: c :: rest
        rw [serializeAbs_cons]
        simp [ih2]

/-- Dot-segment removal keeps a dot-free segment list unchanged. -/
theorem applyDots_go (segs : List (List Char))
    (h : ∀ s ∈ segs, isDotSeg s = false) :
    ∀ acc, segs.foldl (fun acc seg =>
      if isDot2 seg then acc.dropLast
      else if isDot1 seg then acc
      else acc ++ [seg]) acc = acc ++ segs := by
  induction segs with
  | nil => intro acc; simp
  | cons s t ih =>
    intro acc
    have hs := h s (List.mem_cons_self s t)
    rw [isDotSeg, Bool.or_eq_false_iff] at hs
    rw [List.foldl_cons]
    simp only [hs.1, hs.2, Bool.false_eq_true, if_false]
    rw [ih (fun b hb => h b (List.mem_cons_of_mem s hb)) (acc ++ [s])]
    simp

/-- Dot-segment removal is the identity on dot-free segment lists. -/
theorem applyDots_id (segs : List (List Char))
    (h : ∀ s ∈ segs, isDotSeg s = false) : applyDots segs = segs := by
  unfold applyDots
  simpa using applyDots_go segs h []

/-- Runs of slashes collapse to themselves when there are none. -/
theorem collapseChars_id (cs : List Char)
    (h : noDoubleSlashChars cs = true) : collapseChars cs = cs := by
  induction cs with
  | nil => rfl
  | cons c t ih =>
    cases t with
    | nil => rfl
    | cons d t2 =>
      rw [noDoubleSlashChars] at h
      obtain ⟨h1, h2⟩ := Bool.and_eq_true_iff.1 h
      have hcond : ¬((c = '/' && d = '/') = true) := by
        simp only [Bool.and_eq_true, decide_eq_true_eq, not_and]
        intro hcc hdd
        simp [hcc, hdd] at h1
      rw [collapseChars, if_neg hcond, ih h2]

/-- Stripping trailing slashes is the identity when there are none. -/
theorem stripTrailingChars_id (cs : List Char)
    (h : ∀ c, cs.getLast? = some c → c ≠ '/') :
    stripTrailingChars cs = cs := by
  induction cs with
  | nil => rfl
  | cons a t ih =>
    rw [stripTrailingChars]
    cases t with
    | nil =>
      have ha : a ≠ '/' := h a rfl
      simp [stripTrailingChars, ha]
    | cons b t2 =>
      have ht : stripTrailingChars (b :: t2) = b :: t2 :=
        ih (fun c hc => h c (by rw [List.getLast?_cons_cons]; exact hc))
      rw [ht]

/-- A normalized absolute path: slash-led, free of backslashes and of the
query and fragment delimiters, with no doubled or trailing slash and no
dot-like path segments.  `normalize` sends every well-formed `file:` URI
and every POSIX path to such a string (or to the empty string). -/
def isNormalAbsPath (p : String) : Bool :=
  (p.data.head? == some '/') &&
  p.data.all (fun c => !(c = '\\' || c = '?' || c = '#')) &&
  noDoubleSlashChars p.data &&
  !(p.data.getLast? == some '/') &&
  (splitSeps (fun c => c = '/') p.data.tail).all (fun s => !isDotSeg s)

/-- Normalized absolute paths are fixed points of `normalize`. -/
theorem normalize_fixed (p : String) (h : isNormalAbsPath p = true) :
    normalize p = p := by
  rw [isNormalAbsPath] at h
  simp only [Bool.and_eq_true] at h
  obtain ⟨⟨⟨⟨h1, h2⟩, h3⟩, h4⟩, h5⟩ := h
  rcases hd : p.data with _ | ⟨c, rest⟩
  · rw [hd] at h1
    simp at h1
  · have hc : c = '/' := by
      rw [hd] at h1
      simpa using h1
    subst hc
    have hchars : ∀ a ∈ '/' :: rest,
        (a = '\\' || a = '?' || a = '#' : Bool) = false := by
      intro a ha
      have := List.all_eq_true.1 h2 a (hd ▸ ha)
      simpa using this
    have hq : stripQF ('/' :: rest) = '/' :: rest := by
      refine takeWhile_all _ fun a ha => ?_
      have := hchars a ha
      simp only [Bool.or_eq_false_iff] at this
      simp [this.1.2, this.2]
    have hss : schemeSplit ('/' :: rest) = none := rfl
    have hup : urlPathname p.data = parseFileRelative ('/' :: rest) := by
      rw [hd]
      simp only [urlPathname, hq, hss]
    cases rest with
    | nil =>
      rw [hd] at h4
      simp at h4
    | cons c2 tail =>
      have hnds := h3
      rw [hd, noDoubleSlashChars] at hnds
      obtain ⟨hp1, hp2⟩ := Bool.and_eq_true_iff.1 hnds
      have hc2slash : c2 ≠ '/' := by
        intro hx
        rw [hx] at hp1
        simp at hp1
      have hc2back : c2 ≠ '\\' := by
        intro hx
        have := hchars c2 (by simp)
        rw [hx] at this
        simp at this
      have hsep2 : isSepSpecial c2 = false := by
        simp [isSepSpecial, hc2slash, hc2back]
      have hcongr : splitSeps isSepSpecial (c2 :: tail) =
          splitSeps (fun c => c = '/') (c2 :: tail) := by
        refine splitSeps_congr _ _ _ fun a ha => ?_
        have := hchars a (List.mem_cons_of_mem _ ha)
        simp only [Bool.or_eq_false_iff] at this
        simp [isSepSpecial, this.1.1]
      have hsegs : ∀ s ∈ splitSeps (fun c => c = '/') (c2 :: tail),
          isDotSeg s = false := by
        intro s hs
        have htail : p.data.tail = c2 :: tail := by rw [hd]; rfl
        have := List.all_eq_true.1 h5 s (by rw [htail]; exact hs)
        simpa using this
      have hpfr : parseFileRelative ('/' :: c2 :: tail) =
          '/' :: c2 :: tail := by
        rw [parseFileRelative]
        have hcond1 : (isSepSpecial '/' && isSepSpecial c2) = false := by
          simp [hsep2]
        rw [if_neg (by simp [hcond1]), if_pos (by simp [isSepSpecial])]
        rw [hcongr]
        rw [pathFromSegs]
        rw [applyDots_id _ hsegs]
        cases hl : (splitSeps (fun c => c = '/') (c2 :: tail)).getLast? with
        | none =>
          exact absurd (List.getLast?_eq_none_iff.1 hl)
            (splitSeps_ne_nil _ (c2 :: tail))
        | some last =>
          have hmem := List.mem_of_getLast?_eq_some hl
          have hld := hsegs last hmem
          simp only [hld, Bool.false_eq_true, if_false]
          exact serializeAbs_splitSeps (c2 :: tail)
      have hnorm : normalize p =
          String.mk (stripTrailingChars (collapseChars
            (parseFileRelative ('/' :: c2 :: tail)))) := by
        rw [normalize, hup]
      rw [hnorm, hpfr]
      rw [collapseChars_id _ (hd ▸ h3)]
      rw [stripTrailingChars_id _ (fun c hc => by
        have hbeq := h4
        rw [hd] at hbeq
        intro hslash
        rw [hslash] at hc
        rw [hc] at hbeq
        simp at hbeq)]
      cases p with
      | mk data =>
        simp only at hd
        rw [hd]

/-- C9 counterexample: `normalize` is not idempotent on every input — an
opaque-path URL resolves to a pathname without a leading slash, which a
second pass then roots: `normalize "mailto:foo" = "foo"` but
`normalize "foo" = "/foo"`. -/
theorem c9_normalize_counterexample :
    normalize "mailto:foo" = "foo" ∧
    normalize (normalize "mailto:foo") ≠ normalize "mailto:foo" := by
  constructor
  · decide
  · decide

/-- C9 amended: for every input, the output of `normalize` contains no
doubled slash and does not end with a slash; and `normalize` is idempotent
on every input whose output is the empty string or a normalized absolute
path (in particular on every `file:` URI and every POSIX path), though not
on every input string (opaque-path URLs such as `mailto:foo` escape). -/
theorem c9_normalize_amended (s : String) :
    noDoubleSlashChars (normalize s).data = true ∧
    (∀ c, (normalize s).data.getLast? = some c → c ≠ '/') ∧
    (isNormalAbsPath (normalize s) = true ∨ normalize s = "" →
      normalize (normalize s) = normalize s) := by
  have hdata : (normalize s).data =
      stripTrailingChars (collapseChars (urlPathname s.data)) := rfl
  refine ⟨?_, ?_, ?_⟩
  · rw [hdata]
    exact stripTrailingChars_noDS _ (collapseChars_noDS _)
  · intro c hc
    rw [hdata] at hc
    exact stripTrailingChars_last _ c hc
  · rintro (h | h)
    · exact normalize_fixed _ h
    · rw [h]
      decide

/-- C9 amended, witness at the URI `file:///a//b/`: the normalized result
`/a/b` is clean of doubled and trailing slashes and is a fixed point. -/
theorem c9_normalize_amended_witness :
    noDoubleSlashChars (normalize "file:///a//b/").data = true ∧
    (∀ c, (normalize "file:///a//b/").data.getLast? = some c → c ≠ '/') ∧
    normalize (normalize "file:///a//b/") = normalize "file:///a//b/" :=
  ⟨(c9_normalize_amended "file:///a//b/").1,
   (c9_normalize_amended "file:///a//b/").2.1,
   (c9_normalize_amended "file:///a//b/").2.2 (Or.inl (by decide))⟩

end CapUpdater
